import Mathlib

/-
Verification of the EAN Code Retriever (src/app.py).

The development shallowly embeds the core of the program:
  * `get_metering_points` — the registry client (HTTP lookup per product/address),
  * `format_metering_points` — mapping registry metering points to output records,
  * `process_product` — one lookup task,
  * `process_rows` — the batch dispatcher/reducer (thread pool + per-address grouping),
  * `validate_and_process_csv` — the final sort of the assembled records.

The network is modelled as a pure environment `Env : Request → NetResponse`:
each distinct HTTP request is answered by a fixed response (one batch, no
retries, so a task's outcome is a function of its request).  A Python
exception (a raised error from `requests.get` or `response.json()`, re-raised
by `future.result()`) is modelled by the `Except Unit` error case.  The
nondeterministic completion order that `concurrent.futures.as_completed`
exposes to the per-address collection loop is modelled by a schedule
`sched : AddressKey → Bool` saying, per address, whether the GAS future
completes before the ELK future (each address has exactly two futures).
`pandas.DataFrame.sort_values` (ascending, `na_position` default `last`,
deterministic for a fixed input order) is modelled by a stable merge sort
on the four sort columns with absent values greatest.
-/

namespace EanApp

/-- The grouping key `(row["postalCode"], row["streetNumber"])` used by
`process_rows` (postal code already coerced to `str`, street number to `int`). -/
abbrev AddressKey := String × Int

/-- One validated CSV row: `postalCode` (as `str`), `streetNumber` (as `int`),
and the optional `streetNumberAddition` column, where `none` models an
absent column or a NaN cell (`pd.isna`). -/
structure Row where
  postalCode : String
  streetNumber : Int
  streetNumberAddition : Option String
deriving DecidableEq

/-- One element of the registry's `meteringPoints` JSON array.
`addressStreetNumberAddition` is the nested `address.streetNumberAddition`. -/
structure MeteringPoint where
  ean : String
  product : String
  specialMeteringPoint : Bool
  bagId : Option String
  addressStreetNumberAddition : Option String
deriving DecidableEq

/-- One dictionary appended to `metering_data` by `format_metering_points`. -/
structure OutputRecord where
  postalCode : String
  streetNumber : Int
  streetNumberAddition : Option String
  bagId : Option String
  product : String
  ean : String
  specialMeteringPoint : Bool
deriving DecidableEq

/-- The query parameters of one `requests.get(API_URL, params=params)` call.
`streetNumberAddition = none` means the key is absent from `params`. -/
structure Request where
  product : String
  postalCode : String
  streetNumber : Int
  streetNumberAddition : Option String
deriving DecidableEq

/-- Body of an HTTP response: either valid JSON whose `meteringPoints` key
holds a list (`none` = key absent, so `.get("meteringPoints", [])` yields
`[]`), or a malformed body on which `response.json()` raises. -/
inductive Body where
  | json (meteringPoints : Option (List MeteringPoint))
  | malformed
deriving DecidableEq

/-- Result of one `requests.get` call: an HTTP response with a status code
and body, or a raised network exception (`netFail`). -/
inductive NetResponse where
  | response (status : Nat) (body : Body)
  | netFail
deriving DecidableEq

/-- The external registry, answering each request. -/
abbrev Env := Request → NetResponse

/-- The `params` dictionary built inside `get_metering_points`:
`{"product": .., "postalCode": str(..), "streetNumber": int(..)}`, plus
`params["streetNumberAddition"] = str(..)` only under Python truthiness
(`if street_number_addition:`), so `None` and `""` are both omitted. -/
def mk_params (product : String) (postal_code : String) (street_number : Int)
    (street_number_addition : Option String) : Request :=
  { product := product
    postalCode := postal_code
    streetNumber := street_number
    streetNumberAddition :=
      match street_number_addition with
      | some s => if s = "" then none else some s
      | none => none }

/-- The function `get_metering_points` (src/app.py:158-188).  Returns
`response.json().get("meteringPoints", [])` when `response.status_code == 200`,
`None` otherwise.  There is no try/except: a raised exception from
`requests.get` (netFail) or from `response.json()` on a 200 response with a
malformed body propagates, modelled by `.error ()`.  On a non-200 response the
body is never parsed (the conditional expression short-circuits). -/
def get_metering_points (env : Env) (product : String) (postal_code : String)
    (street_number : Int) (street_number_addition : Option String := none) :
    Except Unit (Option (List MeteringPoint)) :=
  match env (mk_params product postal_code street_number street_number_addition) with
  | .netFail => .error ()
  | .response status body =>
      if status = 200 then
        match body with
        | .json mps => .ok (some (mps.getD []))
        | .malformed => .error ()
      else .ok none

/-- The function `format_metering_points` (src/app.py:132-155): one output dictionary per
metering point; `postalCode`/`streetNumber` from the request row, the rest
from the registry's metering point. -/
def format_metering_points (row : Row) (metering_points : List MeteringPoint) :
    List OutputRecord :=
  metering_points.map fun meter_point =>
    { postalCode := row.postalCode
      streetNumber := row.streetNumber
      streetNumberAddition := meter_point.addressStreetNumberAddition
      bagId := meter_point.bagId
      product := meter_point.product
      ean := meter_point.ean
      specialMeteringPoint := meter_point.specialMeteringPoint }

/-- The function `process_product` (src/app.py:106-129): formats the metering points when
the lookup result is truthy (a non-empty list), returns `[]` when it is `None`
or `[]`; a raised exception propagates. -/
def process_product (env : Env) (row : Row) (product : String)
    (street_number_addition : Option String) : Except Unit (List OutputRecord) :=
  match get_metering_points env product row.postalCode row.streetNumber
      street_number_addition with
  | .error e => .error e
  | .ok metering_points =>
      match metering_points with
      | some (mp :: mps) => .ok (format_metering_points row (mp :: mps))
      | some [] => .ok []
      | none => .ok []

/-- The normalization in `process_rows` (src/app.py:74-79):
`None if pd.isna(x) or x == "" else x`. -/
def normalize_addition (raw : Option String) : Option String :=
  match raw with
  | none => none
  | some s => if s = "" then none else some s

/-- The key `(row["postalCode"], row["streetNumber"])` (src/app.py:81). -/
def addrKey (row : Row) : AddressKey := (row.postalCode, row.streetNumber)

/-- One step of building the `tasks` dictionary: `tasks[address_key] = []`
followed by appending the two futures (src/app.py:82-89).  A Python dict
assignment to an existing key replaces the value and keeps the key's original
insertion position; a new key is appended at the end. -/
def upsert (tasks : List (AddressKey × Row)) (key : AddressKey) (row : Row) :
    List (AddressKey × Row) :=
  match tasks with
  | [] => [(key, row)]
  | (k, r) :: rest =>
      if k = key then (key, row) :: rest else (k, r) :: upsert rest key row

/-- The `tasks` dictionary after the submission loop (src/app.py:73-89),
recorded as the row whose two futures each key maps to.  A later row with the
same `AddressKey` resets the entry, so only the last duplicate row's futures
remain. -/
def build_tasks (rows : List Row) : List (AddressKey × Row) :=
  rows.foldl (fun tasks row => upsert tasks (addrKey row) row) []

/-- The two futures of one address collected in `as_completed` order
(src/app.py:92-96): `result_data` extended by each `future.result()` in
completion order; a re-raised exception propagates and discards the partial
list.  `swapped = true` means the GAS future completed first. -/
def address_results (env : Env) (swapped : Bool) (row : Row) :
    Except Unit (List OutputRecord) :=
  let sna := normalize_addition row.streetNumberAddition
  let elk := process_product env row "ELK" sna
  let gas := process_product env row "GAS" sna
  let ordered := if swapped then (gas, elk) else (elk, gas)
  match ordered.1 with
  | .error e => .error e
  | .ok l1 =>
      match ordered.2 with
      | .error e => .error e
      | .ok l2 => .ok (l1 ++ l2)

/-- The collection loop over the `tasks` dictionary (src/app.py:91-101), in
insertion order: an empty `result_data` appends the key to
`missing_addresses`, otherwise the records extend `metering_data`; an
exception re-raised by `future.result()` aborts the whole loop. -/
def collect_results (env : Env) (sched : AddressKey → Bool) :
    List (AddressKey × Row) → Except Unit (List OutputRecord × List AddressKey)
  | [] => .ok ([], [])
  | (key, row) :: rest =>
      match address_results env (sched key) row with
      | .error e => .error e
      | .ok result_data =>
          match collect_results env sched rest with
          | .error e => .error e
          | .ok (metering_data, missing_addresses) =>
              if result_data.isEmpty then
                .ok (metering_data, key :: missing_addresses)
              else
                .ok (result_data ++ metering_data, missing_addresses)

/-- The function `process_rows` (src/app.py:58-103). -/
def process_rows (env : Env) (sched : AddressKey → Bool) (rows : List Row) :
    Except Unit (List OutputRecord × List AddressKey) :=
  collect_results env sched (build_tasks rows)

/-- Strict lexicographic comparison of char lists by code point — the order
pandas uses on Python strings. -/
def charsLT : List Char → List Char → Bool
  | [], [] => false
  | [], _ :: _ => true
  | _ :: _, [] => false
  | a :: as, b :: bs =>
      if a.toNat < b.toNat then true
      else if b.toNat < a.toNat then false
      else charsLT as bs

/-- Strict string comparison used by the sort model. -/
def strLT (a b : String) : Bool := charsLT a.data b.data

/-- Strict comparison of the `streetNumberAddition` column under
`sort_values`' default `na_position="last"`: an absent value sorts after
every present value. -/
def additionLT (a b : Option String) : Bool :=
  match a, b with
  | some x, some y => strLT x y
  | some _, none => true
  | none, _ => false

/-- The comparison `sort_values(by=["postalCode", "streetNumber",
"streetNumberAddition", "product"])` (src/app.py:50-53) performs between two
records: ascending lexicographic on the four columns, absent additions last. -/
def record_le (a b : OutputRecord) : Bool :=
  if strLT a.postalCode b.postalCode then true
  else if strLT b.postalCode a.postalCode then false
  else if a.streetNumber < b.streetNumber then true
  else if b.streetNumber < a.streetNumber then false
  else if additionLT a.streetNumberAddition b.streetNumberAddition then true
  else if additionLT b.streetNumberAddition a.streetNumberAddition then false
  else !(strLT b.product a.product)

/-- The sort in `validate_and_process_csv` (src/app.py:50-53), modelled as a
stable comparison sort under `record_le`. -/
def sort_records (records : List OutputRecord) : List OutputRecord :=
  records.insertionSort (fun a b => record_le a b = true)

/-- The function `validate_and_process_csv` (src/app.py:25-55) after the column check and
coercions (already reflected in `Row`'s field types): the missing-address
warnings plus the sorted record table. -/
def validate_and_process_csv (env : Env) (sched : AddressKey → Bool)
    (rows : List Row) : Except Unit (List OutputRecord × List AddressKey) :=
  match process_rows env sched rows with
  | .error e => .error e
  | .ok (metering_data, missing_addresses) =>
      .ok (sort_records metering_data, missing_addresses)

/-- The `(postalCode, streetNumber)` pair carried by an output record. -/
def recAddr (rec : OutputRecord) : AddressKey := (rec.postalCode, rec.streetNumber)

/-- The full sort key of an output record. -/
def recKey (rec : OutputRecord) : String × Int × Option String × String :=
  (rec.postalCode, rec.streetNumber, rec.streetNumberAddition, rec.product)

/-- Boolean check that consecutive elements are `le`-ordered. -/
def sortedBy (le : α → α → Bool) : List α → Bool
  | [] => true
  | [_] => true
  | a :: b :: t => le a b && sortedBy le (b :: t)

/-- Modelled from the spec (claim wording for the sort order, to be compared
with `record_le` from the source): ascending by the same four columns but
with an absent `streetNumberAddition` sorting before any present value. -/
def spec_additionLT (a b : Option String) : Bool :=
  match a, b with
  | some x, some y => strLT x y
  | some _, none => false
  | none, some _ => true
  | none, none => false

/-- Modelled from the spec (claim wording): the record order with absent
additions first. -/
def spec_record_le (a b : OutputRecord) : Bool :=
  if strLT a.postalCode b.postalCode then true
  else if strLT b.postalCode a.postalCode then false
  else if a.streetNumber < b.streetNumber then true
  else if b.streetNumber < a.streetNumber then false
  else if spec_additionLT a.streetNumberAddition b.streetNumberAddition then true
  else if spec_additionLT b.streetNumberAddition a.streetNumberAddition then false
  else !(strLT b.product a.product)

/-- Holds when a response is handled without an exception by
`get_metering_points`: any HTTP response except a 200 whose body makes
`response.json()` raise.  A raised network error (`netFail`) is excluded. -/
def responds : NetResponse → Bool
  | .netFail => false
  | .response status .malformed => !(status = 200 : Bool)
  | .response _ (.json _) => true

/-- Number of occurrences of a key in a list. -/
def occurrences (k : AddressKey) (l : List AddressKey) : Nat :=
  (l.filter (fun a => a = k)).length

/-- Dictionary lookup on the association list modelling `tasks` (first entry
with the key, as in a Python dict, whose keys are unique). -/
def lookupKey : List (AddressKey × Row) → AddressKey → Option Row
  | [], _ => none
  | (k, r) :: rest, key => if k = key then some r else lookupKey rest key

/-- The last row of the batch whose `AddressKey` is `k` (reference
specification of which duplicate survives the `tasks[address_key] = []`
reset). -/
def lastRowFor : List Row → AddressKey → Option Row
  | [], _ => none
  | row :: rest, k =>
      match lastRowFor rest k with
      | some r => some r
      | none => if addrKey row = k then some row else none

/-- A concrete input row used in the closed instances below. -/
def rowW : Row :=
  { postalCode := "1234AB", streetNumber := 10, streetNumberAddition := none }

/-- A second row with the same address key as `rowW` but another addition. -/
def rowY : Row :=
  { postalCode := "1234AB", streetNumber := 10, streetNumberAddition := some "B" }

/-- A concrete ELK metering point (no addition echoed). -/
def mpW1 : MeteringPoint :=
  { ean := "871685900012345678", product := "ELK", specialMeteringPoint := false,
    bagId := some "0599010000000001", addressStreetNumberAddition := none }

/-- A second concrete ELK metering point (echoes addition "A"). -/
def mpW2 : MeteringPoint :=
  { ean := "871685900012345679", product := "ELK", specialMeteringPoint := true,
    bagId := none, addressStreetNumberAddition := some "A" }

/-- A registry answering ELK with two points and GAS with an empty list. -/
def envW : Env := fun req =>
  if req.product = "ELK" then .response 200 (.json (some [mpW1, mpW2]))
  else .response 200 (.json (some []))

/-- The record `format_metering_points rowW [mpW1, mpW2]` produces from `mpW1`. -/
def recW1 : OutputRecord :=
  { postalCode := "1234AB", streetNumber := 10, streetNumberAddition := none,
    bagId := some "0599010000000001", product := "ELK", ean := "871685900012345678",
    specialMeteringPoint := false }

/-- The record `format_metering_points rowW [mpW1, mpW2]` produces from `mpW2`. -/
def recW2 : OutputRecord :=
  { postalCode := "1234AB", streetNumber := 10, streetNumberAddition := some "A",
    bagId := none, product := "ELK", ean := "871685900012345679",
    specialMeteringPoint := true }

/-- A registry whose ELK answer has no `meteringPoints` key and whose GAS
answer is a 500 with a malformed body (never parsed, so no exception). -/
def envN : Env := fun req =>
  if req.product = "ELK" then .response 200 (.json none)
  else .response 500 .malformed

/-- A registry that is down for every request (503). -/
def envT : Env := fun _ => .response 503 (.json (some []))

/-- A registry for which every request raises a network exception. -/
def envF : Env := fun _ => .netFail

/-- A registry answering 404 with a well-formed body. -/
def envB : Env := fun _ => .response 404 (.json (some []))

/-- A metering point whose product field is "ELK". -/
def mpX1 : MeteringPoint :=
  { ean := "871685900000000001", product := "ELK", specialMeteringPoint := false,
    bagId := none, addressStreetNumberAddition := none }

/-- A metering point identical to `mpX1` except for its EAN. -/
def mpX2 : MeteringPoint :=
  { ean := "871685900000000002", product := "ELK", specialMeteringPoint := false,
    bagId := none, addressStreetNumberAddition := none }

/-- A registry whose GAS lookup echoes a point with product field "ELK"
(the registry, not the request, supplies the `product` column), so the two
lookups of one address yield records that tie on the full sort key. -/
def envX : Env := fun req =>
  if req.product = "ELK" then .response 200 (.json (some [mpX1]))
  else .response 200 (.json (some [mpX2]))

/-- The record produced from `mpX1`. -/
def recX1 : OutputRecord :=
  { postalCode := "1234AB", streetNumber := 10, streetNumberAddition := none,
    bagId := none, product := "ELK", ean := "871685900000000001",
    specialMeteringPoint := false }

/-- The record produced from `mpX2`. -/
def recX2 : OutputRecord :=
  { postalCode := "1234AB", streetNumber := 10, streetNumberAddition := none,
    bagId := none, product := "ELK", ean := "871685900000000002",
    specialMeteringPoint := false }

theorem charsLT_asymm : ∀ a b, charsLT a b = true → charsLT b a = false := by
  intro a
  induction a with
  | nil =>
    intro b h
    cases b with
    | nil => simp [charsLT] at h
    | cons y ys => rfl
  | cons x xs ih =>
    intro b h
    cases b with
    | nil => simp [charsLT] at h
    | cons y ys =>
      simp only [charsLT] at h ⊢
      by_cases h1 : x.toNat < y.toNat
      · have h2 : ¬ y.toNat < x.toNat := by omega
        simp [h1, h2]
      · by_cases h2 : y.toNat < x.toNat
        · simp [h1, h2] at h
        · simp only [if_neg h1, if_neg h2] at h ⊢
          exact ih ys h

theorem charsLT_trans : ∀ a b c, charsLT a b = true → charsLT b c = true →
    charsLT a c = true := by
  intro a
  induction a with
  | nil =>
    intro b c hab hbc
    cases b with
    | nil => simp [charsLT] at hab
    | cons y ys => cases c with
      | nil => simp [charsLT] at hbc
      | cons z zs => simp [charsLT]
  | cons x xs ih =>
    intro b c hab hbc
    cases b with
    | nil => simp [charsLT] at hab
    | cons y ys =>
      cases c with
      | nil => simp [charsLT] at hbc
      | cons z zs =>
        simp only [charsLT] at hab hbc ⊢
        by_cases hxy : x.toNat < y.toNat
        · by_cases hyz : y.toNat < z.toNat
          · have : x.toNat < z.toNat := by omega
            simp [this]
          · by_cases hzy : z.toNat < y.toNat
            · simp [hxy, hyz, hzy] at hbc
            · have hyzeq : y.toNat = z.toNat := by omega
              have : x.toNat < z.toNat := by omega
              simp [this]
        · by_cases hyx : y.toNat < x.toNat
          · simp [hxy, hyx] at hab
          · have hxyeq : x.toNat = y.toNat := by omega
            by_cases hyz : y.toNat < z.toNat
            · have : x.toNat < z.toNat := by omega
              simp [this]
            · by_cases hzy : z.toNat < y.toNat
              · simp [hyz, hzy] at hbc
              · have : ¬ x.toNat < z.toNat := by omega
                have h2 : ¬ z.toNat < x.toNat := by omega
                simp only [if_neg hxy, if_neg hyx] at hab
                simp only [if_neg hyz, if_neg hzy] at hbc
                simp only [if_neg this, if_neg h2]
                exact ih ys zs hab hbc

theorem char_toNat_inj {a b : Char} (h : a.toNat = b.toNat) : a = b := by
  apply Char.ext
  exact UInt32.toNat.inj h

theorem charsLT_connex : ∀ a b, charsLT a b = false → charsLT b a = false →
    a = b := by
  intro a
  induction a with
  | nil =>
    intro b hab _
    cases b with
    | nil => rfl
    | cons y ys => simp [charsLT] at hab
  | cons x xs ih =>
    intro b hab hba
    cases b with
    | nil => simp [charsLT] at hba
    | cons y ys =>
      simp only [charsLT] at hab hba
      by_cases hxy : x.toNat < y.toNat
      · simp [hxy] at hab
      · by_cases hyx : y.toNat < x.toNat
        · simp [hxy, hyx] at hba
        · simp only [if_neg hxy, if_neg hyx] at hab hba
          have hx : x = y := char_toNat_inj (by omega)
          rw [hx, ih ys hab hba]

theorem strLT_asymm {a b : String} (h : strLT a b = true) : strLT b a = false :=
  charsLT_asymm a.data b.data h

theorem strLT_trans {a b c : String} (hab : strLT a b = true)
    (hbc : strLT b c = true) : strLT a c = true :=
  charsLT_trans a.data b.data c.data hab hbc

theorem strLT_connex {a b : String} (hab : strLT a b = false)
    (hba : strLT b a = false) : a = b :=
  String.ext (charsLT_connex a.data b.data hab hba)

theorem additionLT_asymm {a b : Option String} (h : additionLT a b = true) :
    additionLT b a = false := by
  cases a <;> cases b <;> simp_all [additionLT]
  exact strLT_asymm h

theorem additionLT_trans {a b c : Option String} (hab : additionLT a b = true)
    (hbc : additionLT b c = true) : additionLT a c = true := by
  cases a <;> cases b <;> cases c <;> simp_all [additionLT]
  exact strLT_trans hab hbc

theorem additionLT_connex {a b : Option String} (hab : additionLT a b = false)
    (hba : additionLT b a = false) : a = b := by
  cases a <;> cases b <;> simp_all [additionLT]
  exact strLT_connex hab hba

theorem record_le_total : ∀ a b, record_le a b = true ∨ record_le b a = true := by
  intro a b
  unfold record_le
  cases p1 : strLT a.postalCode b.postalCode with
  | true => simp [p1]
  | false =>
    cases p2 : strLT b.postalCode a.postalCode with
    | true => simp [p1, p2]
    | false =>
      simp only [p1, p2, Bool.false_eq_true, if_false]
      rcases lt_trichotomy a.streetNumber b.streetNumber with s1 | s1 | s1
      · left; simp [s1]
      · have s2 : ¬ a.streetNumber < b.streetNumber := by omega
        have s3 : ¬ b.streetNumber < a.streetNumber := by omega
        simp only [if_neg s2, if_neg s3]
        cases a1 : additionLT a.streetNumberAddition b.streetNumberAddition with
        | true => simp [a1]
        | false =>
          cases a2 : additionLT b.streetNumberAddition a.streetNumberAddition with
          | true => simp [a1, a2]
          | false =>
            simp only [a1, a2, Bool.false_eq_true, if_false]
            cases q1 : strLT b.product a.product with
            | true =>
              right
              have := strLT_asymm q1
              simp [this]
            | false => left; simp [q1]
      · have s2 : ¬ a.streetNumber < b.streetNumber := by omega
        right; simp [s1]

theorem record_le_trans : ∀ a b c, record_le a b = true → record_le b c = true →
    record_le a c = true := by
  intro a b c hab hbc
  unfold record_le at hab hbc ⊢
  -- postal code level
  cases p1 : strLT a.postalCode b.postalCode with
  | true =>
    cases q1 : strLT b.postalCode c.postalCode with
    | true => simp [strLT_trans p1 q1]
    | false =>
      cases q2 : strLT c.postalCode b.postalCode with
      | true => simp [q1, q2] at hbc
      | false =>
        have hpc : b.postalCode = c.postalCode := strLT_connex q1 q2
        rw [hpc] at p1
        simp [p1]
  | false =>
    cases p2 : strLT b.postalCode a.postalCode with
    | true => simp [p1, p2] at hab
    | false =>
      have hpcab : a.postalCode = b.postalCode := strLT_connex p1 p2
      simp only [p1, p2, Bool.false_eq_true, if_false] at hab
      rw [← hpcab] at hbc
      cases q1 : strLT a.postalCode c.postalCode with
      | true => simp [q1]
      | false =>
        cases q2 : strLT c.postalCode a.postalCode with
        | true => simp [q1, q2] at hbc
        | false =>
          simp only [q1, q2, Bool.false_eq_true, if_false] at hbc ⊢
          -- street number level
          by_cases s1 : a.streetNumber < b.streetNumber
          · simp only [if_pos s1] at hab
            by_cases t1 : b.streetNumber < c.streetNumber
            · have : a.streetNumber < c.streetNumber := by omega
              simp [this]
            · by_cases t2 : c.streetNumber < b.streetNumber
              · simp [if_neg t1, if_pos t2] at hbc
              · have : a.streetNumber < c.streetNumber := by omega
                simp [this]
          · by_cases s2 : b.streetNumber < a.streetNumber
            · simp [if_neg s1, if_pos s2] at hab
            · have hsn : a.streetNumber = b.streetNumber := by omega
              simp only [if_neg s1, if_neg s2] at hab
              rw [← hsn] at hbc
              by_cases t1 : a.streetNumber < c.streetNumber
              · simp [if_pos t1]
              · by_cases t2 : c.streetNumber < a.streetNumber
                · simp [if_neg t1, if_pos t2] at hbc
                · simp only [if_neg t1, if_neg t2] at hbc ⊢
                  -- addition level
                  cases u1 : additionLT a.streetNumberAddition b.streetNumberAddition with
                  | true =>
                    cases v1 : additionLT b.streetNumberAddition c.streetNumberAddition with
                    | true => simp [additionLT_trans u1 v1]
                    | false =>
                      cases v2 : additionLT c.streetNumberAddition b.streetNumberAddition with
                      | true => simp [v1, v2] at hbc
                      | false =>
                        have hadd : b.streetNumberAddition = c.streetNumberAddition :=
                          additionLT_connex v1 v2
                        rw [hadd] at u1
                        simp [u1]
                  | false =>
                    cases u2 : additionLT b.streetNumberAddition a.streetNumberAddition with
                    | true => simp [u1, u2] at hab
                    | false =>
                      have haddab : a.streetNumberAddition = b.streetNumberAddition :=
                        additionLT_connex u1 u2
                      simp only [u1, u2, Bool.false_eq_true, if_false] at hab
                      rw [← haddab] at hbc
                      cases v1 : additionLT a.streetNumberAddition c.streetNumberAddition with
                      | true => simp [v1]
                      | false =>
                        cases v2 : additionLT c.streetNumberAddition a.streetNumberAddition with
                        | true => simp [v1, v2] at hbc
                        | false =>
                          simp only [v1, v2, Bool.false_eq_true, if_false] at hbc ⊢
                          -- product level
                          simp only [Bool.not_eq_true'] at hab hbc ⊢
                          cases w1 : strLT c.product a.product with
                          | true =>
                            exfalso
                            cases w2 : strLT b.product a.product with
                            | true => simp [w2] at hab
                            | false =>
                              cases w3 : strLT c.product b.product with
                              | true => simp [w3] at hbc
                              | false =>
                                cases w4 : strLT b.product c.product with
                                | true =>
                                  have := strLT_trans w4 w1
                                  simp [this] at hab
                                | false =>
                                  have : b.product = c.product := strLT_connex w4 w3
                                  rw [← this] at w1
                                  simp [w1] at hab
                          | false => rfl

theorem record_le_key_antisymm : ∀ a b, record_le a b = true → record_le b a = true →
    recKey a = recKey b := by
  intro a b hab hba
  unfold record_le at hab hba
  cases p1 : strLT a.postalCode b.postalCode with
  | true =>
    have p2 := strLT_asymm p1
    simp [p1, p2] at hba
  | false =>
    cases p2 : strLT b.postalCode a.postalCode with
    | true => simp [p1, p2] at hab
    | false =>
      have hpc : a.postalCode = b.postalCode := strLT_connex p1 p2
      simp only [p1, p2, Bool.false_eq_true, if_false] at hab hba
      by_cases s1 : a.streetNumber < b.streetNumber
      · have s2 : ¬ b.streetNumber < a.streetNumber := by omega
        simp [if_neg s2, if_pos s1] at hba
      · by_cases s2 : b.streetNumber < a.streetNumber
        · simp [if_neg s1, if_pos s2] at hab
        · have hsn : a.streetNumber = b.streetNumber := by omega
          simp only [if_neg s1, if_neg s2] at hab hba
          cases u1 : additionLT a.streetNumberAddition b.streetNumberAddition with
          | true =>
            have u2 := additionLT_asymm u1
            simp [u1, u2] at hba
          | false =>
            cases u2 : additionLT b.streetNumberAddition a.streetNumberAddition with
            | true => simp [u1, u2] at hab
            | false =>
              have hadd : a.streetNumberAddition = b.streetNumberAddition :=
                additionLT_connex u1 u2
              simp only [u1, u2, Bool.false_eq_true, if_false] at hab hba
              simp only [Bool.not_eq_true'] at hab hba
              have hprod : a.product = b.product := strLT_connex hba hab
              simp [recKey, hpc, hsn, hadd, hprod]

theorem sort_records_sorted (l : List OutputRecord) :
    List.Sorted (fun a b => record_le a b = true) (sort_records l) := by
  unfold sort_records
  exact @List.sorted_insertionSort _ _ _
    ⟨fun a b => record_le_total a b⟩ ⟨fun a b c => record_le_trans a b c⟩ l

theorem sort_records_perm (l : List OutputRecord) : (sort_records l).Perm l :=
  List.perm_insertionSort _ l

theorem sorted_eq_of_perm_of_nodup_keys :
    ∀ (l1 l2 : List OutputRecord), l1.Perm l2 →
      List.Sorted (fun a b => record_le a b = true) l1 →
      List.Sorted (fun a b => record_le a b = true) l2 →
      (l1.map recKey).Nodup → l1 = l2 := by
  intro l1
  induction l1 with
  | nil =>
    intro l2 hp _ _ _
    exact (List.Perm.eq_nil hp.symm).symm
  | cons a t1 ih =>
    intro l2 hp hs1 hs2 hnd
    cases l2 with
    | nil => exact absurd (List.Perm.eq_nil hp) (by simp)
    | cons b t2 =>
      by_cases hab : a = b
      · subst hab
        have hp' : t1.Perm t2 := hp.cons_inv
        have hnd' : (t1.map recKey).Nodup := (List.nodup_cons.mp (by simpa using hnd)).2
        rw [ih t2 hp' hs1.of_cons hs2.of_cons hnd']
      · exfalso
        have hbmem : b ∈ a :: t1 := hp.symm.subset (List.mem_cons_self b t2)
        have hamem : a ∈ b :: t2 := hp.subset (List.mem_cons_self a t1)
        have hb_t1 : b ∈ t1 := by
          cases List.mem_cons.mp hbmem with
          | inl h => exact absurd h.symm hab
          | inr h => exact h
        have ha_t2 : a ∈ t2 := by
          cases List.mem_cons.mp hamem with
          | inl h => exact absurd h hab
          | inr h => exact h
        have h1 : record_le a b = true := List.rel_of_sorted_cons hs1 b hb_t1
        have h2 : record_le b a = true := List.rel_of_sorted_cons hs2 a ha_t2
        have hk : recKey a = recKey b := record_le_key_antisymm a b h1 h2
        have hmem : recKey b ∈ t1.map recKey := List.mem_map_of_mem _ hb_t1
        rw [← hk] at hmem
        exact (List.nodup_cons.mp (by simpa using hnd)).1 hmem

theorem upsert_mem_pairs :
    ∀ (l : List (AddressKey × Row)) (k : AddressKey) (r : Row) (p : AddressKey × Row),
      p ∈ upsert l k r → p = (k, r) ∨ p ∈ l := by
  intro l k r
  induction l with
  | nil => intro p hp; simp [upsert] at hp; left; exact hp
  | cons q t ih =>
    obtain ⟨k0, r0⟩ := q
    intro p hp
    simp only [upsert] at hp
    by_cases hk : k0 = k
    · rw [if_pos hk] at hp
      cases List.mem_cons.mp hp with
      | inl h => left; exact h
      | inr h => right; exact List.mem_cons_of_mem _ h
    · rw [if_neg hk] at hp
      cases List.mem_cons.mp hp with
      | inl h => right; rw [h]; exact List.mem_cons_self _ _
      | inr h =>
        cases ih p h with
        | inl h2 => left; exact h2
        | inr h2 => right; exact List.mem_cons_of_mem _ h2

theorem upsert_keys_of_mem :
    ∀ (l : List (AddressKey × Row)) (k : AddressKey) (r : Row),
      k ∈ l.map Prod.fst → (upsert l k r).map Prod.fst = l.map Prod.fst := by
  intro l k r
  induction l with
  | nil => intro h; simp at h
  | cons q t ih =>
    obtain ⟨k0, r0⟩ := q
    intro h
    simp only [upsert]
    by_cases hk : k0 = k
    · rw [if_pos hk, hk]; simp
    · rw [if_neg hk]
      simp only [List.map_cons] at h ⊢
      have h' : k ∈ t.map Prod.fst := by
        cases List.mem_cons.mp h with
        | inl h2 => exact absurd h2.symm hk
        | inr h2 => exact h2
      rw [ih h']

theorem upsert_append :
    ∀ (l : List (AddressKey × Row)) (k : AddressKey) (r : Row),
      k ∉ l.map Prod.fst → upsert l k r = l ++ [(k, r)] := by
  intro l k r
  induction l with
  | nil => intro _; rfl
  | cons q t ih =>
    obtain ⟨k0, r0⟩ := q
    intro h
    simp only [List.map_cons, List.mem_cons] at h
    push_neg at h
    have hne : k0 ≠ k := fun he => h.1 he.symm
    simp only [upsert, if_neg hne]
    rw [ih h.2, List.cons_append]

theorem upsert_keys_iff :
    ∀ (l : List (AddressKey × Row)) (k : AddressKey) (r : Row) (k0 : AddressKey),
      k0 ∈ (upsert l k r).map Prod.fst ↔ k0 ∈ l.map Prod.fst ∨ k0 = k := by
  intro l k r k0
  by_cases h : k ∈ l.map Prod.fst
  · rw [upsert_keys_of_mem l k r h]
    constructor
    · intro h2; left; exact h2
    · intro h2
      cases h2 with
      | inl h3 => exact h3
      | inr h3 => rw [h3]; exact h
  · rw [upsert_append l k r h]
    simp [List.map_append]

theorem upsert_keys_nodup :
    ∀ (l : List (AddressKey × Row)) (k : AddressKey) (r : Row),
      (l.map Prod.fst).Nodup → ((upsert l k r).map Prod.fst).Nodup := by
  intro l k r h
  by_cases hm : k ∈ l.map Prod.fst
  · rw [upsert_keys_of_mem l k r hm]; exact h
  · rw [upsert_append l k r hm]
    simp only [List.map_append]
    simp [List.nodup_append, h, hm]

theorem lookupKey_upsert_self :
    ∀ (l : List (AddressKey × Row)) (k : AddressKey) (r : Row),
      lookupKey (upsert l k r) k = some r := by
  intro l k r
  induction l with
  | nil => simp [upsert, lookupKey]
  | cons q t ih =>
    obtain ⟨k0, r0⟩ := q
    simp only [upsert]
    by_cases hk : k0 = k
    · rw [if_pos hk]; simp [lookupKey]
    · rw [if_neg hk]
      simp only [lookupKey, if_neg hk]
      exact ih

theorem lookupKey_upsert_other :
    ∀ (l : List (AddressKey × Row)) (k : AddressKey) (r : Row) (key : AddressKey),
      k ≠ key → lookupKey (upsert l k r) key = lookupKey l key := by
  intro l k r key hne
  induction l with
  | nil => simp [upsert, lookupKey, if_neg hne]
  | cons q t ih =>
    obtain ⟨k0, r0⟩ := q
    simp only [upsert]
    by_cases hk : k0 = k
    · rw [if_pos hk]
      simp only [lookupKey, if_neg hne, hk]
    · rw [if_neg hk]
      simp only [lookupKey]
      by_cases hk0 : k0 = key
      · rw [if_pos hk0, if_pos hk0]
      · rw [if_neg hk0, if_neg hk0]
        exact ih

theorem build_go :
    ∀ (rows : List Row) (acc : List (AddressKey × Row)),
      (∀ p ∈ acc, addrKey p.2 = p.1) → (acc.map Prod.fst).Nodup →
      (∀ p ∈ rows.foldl (fun tasks row => upsert tasks (addrKey row) row) acc,
          addrKey p.2 = p.1) ∧
      ((rows.foldl (fun tasks row => upsert tasks (addrKey row) row) acc).map
          Prod.fst).Nodup ∧
      (∀ k, k ∈ (rows.foldl (fun tasks row => upsert tasks (addrKey row) row) acc).map
          Prod.fst ↔ (k ∈ acc.map Prod.fst ∨ k ∈ rows.map addrKey)) := by
  intro rows
  induction rows with
  | nil =>
    intro acc h1 h2
    refine ⟨h1, h2, ?_⟩
    intro k
    simp
  | cons row rest ih =>
    intro acc h1 h2
    simp only [List.foldl_cons]
    have h1' : ∀ p ∈ upsert acc (addrKey row) row, addrKey p.2 = p.1 := by
      intro p hp
      cases upsert_mem_pairs acc (addrKey row) row p hp with
      | inl h => rw [h]
      | inr h => exact h1 p h
    have h2' := upsert_keys_nodup acc (addrKey row) row h2
    obtain ⟨a, b, c⟩ := ih (upsert acc (addrKey row) row) h1' h2'
    refine ⟨a, b, ?_⟩
    intro k
    rw [c k, upsert_keys_iff]
    simp only [List.map_cons, List.mem_cons]
    tauto

theorem build_tasks_pairs (rows : List Row) :
    ∀ p ∈ build_tasks rows, addrKey p.2 = p.1 :=
  (build_go rows [] (by simp) (by simp)).1

theorem build_tasks_nodup (rows : List Row) :
    ((build_tasks rows).map Prod.fst).Nodup :=
  (build_go rows [] (by simp) (by simp)).2.1

theorem build_tasks_keys (rows : List Row) (k : AddressKey) :
    k ∈ (build_tasks rows).map Prod.fst ↔ k ∈ rows.map addrKey := by
  have := (build_go rows [] (by simp) (by simp)).2.2 k
  simpa using this

theorem lookup_foldl :
    ∀ (rows : List Row) (acc : List (AddressKey × Row)) (k : AddressKey),
      lookupKey (rows.foldl (fun tasks row => upsert tasks (addrKey row) row) acc) k =
        match lastRowFor rows k with
        | some r => some r
        | none => lookupKey acc k := by
  intro rows
  induction rows with
  | nil => intro acc k; rfl
  | cons row rest ih =>
    intro acc k
    simp only [List.foldl_cons, lastRowFor]
    rw [ih]
    cases h : lastRowFor rest k with
    | some r => rfl
    | none =>
      by_cases hk : addrKey row = k
      · rw [if_pos hk]
        rw [← hk]
        exact lookupKey_upsert_self acc (addrKey row) row
      · rw [if_neg hk]
        exact lookupKey_upsert_other acc (addrKey row) row k hk

theorem build_tasks_lookup (rows : List Row) (k : AddressKey) :
    lookupKey (build_tasks rows) k = lastRowFor rows k := by
  unfold build_tasks
  rw [lookup_foldl]
  cases lastRowFor rows k <;> rfl

theorem foldl_fresh :
    ∀ (l : List (AddressKey × Row)) (acc : List (AddressKey × Row)),
      (∀ p ∈ l, addrKey p.2 = p.1) → ((l.map Prod.fst).Nodup) →
      (∀ p ∈ l, p.1 ∉ acc.map Prod.fst) →
      (l.map Prod.snd).foldl (fun tasks row => upsert tasks (addrKey row) row) acc =
        acc ++ l := by
  intro l
  induction l with
  | nil => intro acc _ _ _; simp
  | cons p t ih =>
    obtain ⟨k, r⟩ := p
    intro acc h1 h2 h3
    simp only [List.map_cons, List.foldl_cons]
    have hk : addrKey r = k := h1 (k, r) (List.mem_cons_self _ _)
    rw [hk, upsert_append acc k r (h3 (k, r) (List.mem_cons_self _ _))]
    have h2' : (t.map Prod.fst).Nodup := by
      simp only [List.map_cons, List.nodup_cons] at h2
      exact h2.2
    have hknot : k ∉ t.map Prod.fst := by
      simp only [List.map_cons, List.nodup_cons] at h2
      exact h2.1
    rw [ih (acc ++ [(k, r)]) (fun q hq => h1 q (List.mem_cons_of_mem _ hq)) h2' ?_]
    · simp
    · intro q hq
      simp only [List.map_append, List.mem_append]
      push_neg
      refine ⟨h3 q (List.mem_cons_of_mem _ hq), ?_⟩
      intro hqk
      simp only [List.map_cons, List.map_nil, List.mem_cons, List.not_mem_nil, or_false] at hqk
      exact hknot (hqk ▸ List.mem_map_of_mem Prod.fst hq)

theorem build_tasks_idem (rows : List Row) :
    build_tasks ((build_tasks rows).map Prod.snd) = build_tasks rows := by
  unfold build_tasks
  have := foldl_fresh (build_tasks rows) [] (build_tasks_pairs rows)
    (build_tasks_nodup rows) (by simp)
  simpa [build_tasks] using this

theorem process_product_eq (env : Env) (row : Row) (product : String)
    (sna : Option String) :
    process_product env row product sna =
      match get_metering_points env product row.postalCode row.streetNumber sna with
      | .error e => .error e
      | .ok o => .ok (format_metering_points row (o.getD [])) := by
  unfold process_product
  cases get_metering_points env product row.postalCode row.streetNumber sna with
  | error e => rfl
  | ok o =>
    cases o with
    | none => rfl
    | some l => cases l <;> rfl

theorem process_product_addr (env : Env) (row : Row) (product : String)
    (sna : Option String) (l : List OutputRecord)
    (h : process_product env row product sna = .ok l) :
    ∀ rec ∈ l, recAddr rec = addrKey row := by
  rw [process_product_eq] at h
  cases hg : get_metering_points env product row.postalCode row.streetNumber sna with
  | error e => rw [hg] at h; exact absurd h (by simp)
  | ok o =>
    rw [hg] at h
    simp only [Except.ok.injEq] at h
    subst h
    intro rec hrec
    unfold format_metering_points at hrec
    obtain ⟨mp, _, hmp⟩ := List.mem_map.mp hrec
    rw [← hmp]
    rfl

theorem address_results_eq (env : Env) (b : Bool) (row : Row) :
    address_results env b row =
      match process_product env row "ELK" (normalize_addition row.streetNumberAddition),
            process_product env row "GAS" (normalize_addition row.streetNumberAddition) with
      | .ok le, .ok lg => .ok (if b then lg ++ le else le ++ lg)
      | _, _ => .error () := by
  unfold address_results
  cases he : process_product env row "ELK" (normalize_addition row.streetNumberAddition) with
  | error e =>
    cases hg : process_product env row "GAS" (normalize_addition row.streetNumberAddition) with
    | error e2 => cases b <;> simp [he, hg]
    | ok lg => cases b <;> simp [he, hg]
  | ok le =>
    cases hg : process_product env row "GAS" (normalize_addition row.streetNumberAddition) with
    | error e2 => cases b <;> simp [he, hg]
    | ok lg => cases b <;> simp [he, hg]

theorem address_results_addr (env : Env) (b : Bool) (row : Row)
    (l : List OutputRecord) (h : address_results env b row = .ok l) :
    ∀ rec ∈ l, recAddr rec = addrKey row := by
  rw [address_results_eq] at h
  cases he : process_product env row "ELK" (normalize_addition row.streetNumberAddition) with
  | error e => rw [he] at h; exact absurd h (by simp)
  | ok le =>
    cases hg : process_product env row "GAS" (normalize_addition row.streetNumberAddition) with
    | error e => rw [he, hg] at h; exact absurd h (by simp)
    | ok lg =>
      rw [he, hg] at h
      simp only [Except.ok.injEq] at h
      subst h
      intro rec hrec
      cases b with
      | true =>
        simp only [if_pos rfl] at hrec
        cases List.mem_append.mp hrec with
        | inl h2 => exact process_product_addr env row "GAS" _ lg hg rec h2
        | inr h2 => exact process_product_addr env row "ELK" _ le he rec h2
      | false =>
        simp only [Bool.false_eq_true, if_false] at hrec
        cases List.mem_append.mp hrec with
        | inl h2 => exact process_product_addr env row "ELK" _ le he rec h2
        | inr h2 => exact process_product_addr env row "GAS" _ lg hg rec h2

theorem address_results_swap (env : Env) (b b' : Bool) (row : Row) :
    (address_results env b row = .error () ∧ address_results env b' row = .error ()) ∨
    (∃ l l', address_results env b row = .ok l ∧ address_results env b' row = .ok l' ∧
      l.Perm l' ∧ (l = [] ↔ l' = [])) := by
  rw [address_results_eq env b row, address_results_eq env b' row]
  cases he : process_product env row "ELK" (normalize_addition row.streetNumberAddition) with
  | error e => left; exact ⟨rfl, rfl⟩
  | ok le =>
    cases hg : process_product env row "GAS" (normalize_addition row.streetNumberAddition) with
    | error e => left; exact ⟨rfl, rfl⟩
    | ok lg =>
      right
      refine ⟨_, _, rfl, rfl, ?_, ?_⟩
      · cases b <;> cases b' <;> simp [List.perm_append_comm]
      · cases b <;> cases b' <;> simp [List.append_eq_nil] <;> tauto

theorem collect_addrs (env : Env) (sched : AddressKey → Bool) :
    ∀ (ts : List (AddressKey × Row)) (md : List OutputRecord) (ma : List AddressKey),
      (∀ p ∈ ts, addrKey p.2 = p.1) →
      collect_results env sched ts = .ok (md, ma) →
      (∀ rec ∈ md, recAddr rec ∈ ts.map Prod.fst) ∧ (∀ k ∈ ma, k ∈ ts.map Prod.fst) := by
  intro ts
  induction ts with
  | nil =>
    intro md ma _ h
    simp only [collect_results, Except.ok.injEq, Prod.mk.injEq] at h
    obtain ⟨h1, h2⟩ := h
    subst h1; subst h2
    simp
  | cons p t ih =>
    obtain ⟨key, row⟩ := p
    intro md ma hpairs h
    simp only [collect_results] at h
    cases ha : address_results env (sched key) row with
    | error e => rw [ha] at h; exact absurd h (by simp)
    | ok rd =>
      rw [ha] at h
      cases hc : collect_results env sched t with
      | error e => rw [hc] at h; exact absurd h (by simp)
      | ok pr =>
        obtain ⟨mdt, mat⟩ := pr
        rw [hc] at h
        dsimp only at h
        have hkey : addrKey row = key := hpairs (key, row) (List.mem_cons_self _ _)
        have hrd : ∀ rec ∈ rd, recAddr rec = key := by
          intro rec hrec
          rw [address_results_addr env (sched key) row rd ha rec hrec, hkey]
        obtain ⟨iha, ihb⟩ := ih mdt mat (fun q hq => hpairs q (List.mem_cons_of_mem _ hq)) hc
        by_cases hemp : rd.isEmpty
        · rw [if_pos hemp] at h
          simp only [Except.ok.injEq, Prod.mk.injEq] at h
          obtain ⟨h1, h2⟩ := h
          subst h1; subst h2
          constructor
          · intro rec hrec
            simp only [List.map_cons, List.mem_cons]
            right
            exact iha rec hrec
          · intro k hk
            simp only [List.map_cons, List.mem_cons]
            cases List.mem_cons.mp hk with
            | inl h2 => left; exact h2
            | inr h2 => right; exact ihb k h2
        · rw [if_neg hemp] at h
          simp only [Except.ok.injEq, Prod.mk.injEq] at h
          obtain ⟨h1, h2⟩ := h
          subst h1; subst h2
          constructor
          · intro rec hrec
            simp only [List.map_cons, List.mem_cons]
            cases List.mem_append.mp hrec with
            | inl h2 => left; exact hrd rec h2
            | inr h2 => right; exact iha rec h2
          · intro k hk
            simp only [List.map_cons, List.mem_cons]
            right
            exact ihb k hk

theorem collect_cover (env : Env) (sched : AddressKey → Bool) :
    ∀ (ts : List (AddressKey × Row)) (md : List OutputRecord) (ma : List AddressKey),
      (∀ p ∈ ts, addrKey p.2 = p.1) → ((ts.map Prod.fst).Nodup) →
      collect_results env sched ts = .ok (md, ma) →
      (∀ k, (k ∈ md.map recAddr ∨ k ∈ ma) ↔ k ∈ ts.map Prod.fst) ∧
      ma.Nodup ∧ (∀ k ∈ ma, k ∉ md.map recAddr) := by
  intro ts
  induction ts with
  | nil =>
    intro md ma _ _ h
    simp only [collect_results, Except.ok.injEq, Prod.mk.injEq] at h
    obtain ⟨h1, h2⟩ := h
    subst h1; subst h2
    simp
  | cons p t ih =>
    obtain ⟨key, row⟩ := p
    intro md ma hpairs hnd h
    simp only [collect_results] at h
    cases ha : address_results env (sched key) row with
    | error e => rw [ha] at h; exact absurd h (by simp)
    | ok rd =>
      rw [ha] at h
      cases hc : collect_results env sched t with
      | error e => rw [hc] at h; exact absurd h (by simp)
      | ok pr =>
        obtain ⟨mdt, mat⟩ := pr
        rw [hc] at h
        dsimp only at h
        have hkey : addrKey row = key := hpairs (key, row) (List.mem_cons_self _ _)
        have hrd : ∀ rec ∈ rd, recAddr rec = key := by
          intro rec hrec
          rw [address_results_addr env (sched key) row rd ha rec hrec, hkey]
        have hpairs' : ∀ q ∈ t, addrKey q.2 = q.1 :=
          fun q hq => hpairs q (List.mem_cons_of_mem _ hq)
        have hnd' : (t.map Prod.fst).Nodup := by
          simp only [List.map_cons, List.nodup_cons] at hnd
          exact hnd.2
        have hknot : key ∉ t.map Prod.fst := by
          simp only [List.map_cons, List.nodup_cons] at hnd
          exact hnd.1
        obtain ⟨ih1, ih2, ih3⟩ := ih mdt mat hpairs' hnd' hc
        obtain ⟨tmd, tma⟩ := collect_addrs env sched t mdt mat hpairs' hc
        by_cases hemp : rd.isEmpty
        · rw [if_pos hemp] at h
          simp only [Except.ok.injEq, Prod.mk.injEq] at h
          obtain ⟨h1, h2⟩ := h
          subst h1; subst h2
          refine ⟨?_, ?_, ?_⟩
          · intro k
            simp only [List.map_cons, List.mem_cons]
            rw [← ih1 k]
            tauto
          · simp only [List.nodup_cons]
            refine ⟨fun hmem => hknot (tma key hmem), ih2⟩
          · intro k hk
            cases List.mem_cons.mp hk with
            | inl h2 =>
              subst h2
              intro hmem
              obtain ⟨rec, hrec, hrk⟩ := List.mem_map.mp hmem
              exact hknot (hrk ▸ tmd rec hrec)
            | inr h2 => exact ih3 k h2
        · rw [if_neg hemp] at h
          simp only [Except.ok.injEq, Prod.mk.injEq] at h
          obtain ⟨h1, h2⟩ := h
          subst h1; subst h2
          obtain ⟨rec0, hrec0⟩ : ∃ rec, rec ∈ rd := by
            cases rd with
            | nil => exact absurd rfl hemp
            | cons x xs => exact ⟨x, List.mem_cons_self _ _⟩
          refine ⟨?_, ih2, ?_⟩
          · intro k
            simp only [List.map_cons, List.mem_cons, List.map_append, List.mem_append]
            rw [← ih1 k]
            constructor
            · intro hk
              rcases hk with (hk | hk) | hk
              · obtain ⟨rec, hrec, hrk⟩ := List.mem_map.mp hk
                left
                rw [← hrk, hrd rec hrec]
              · right; left; exact hk
              · right; right; exact hk
            · intro hk
              rcases hk with hk | hk | hk
              · left; left
                rw [hk]
                exact hrd rec0 hrec0 ▸ List.mem_map_of_mem recAddr hrec0
              · left; right; exact hk
              · right; exact hk
          · intro k hk
            have hkt : k ∈ t.map Prod.fst := tma k hk
            have hne : recAddr rec0 = key := hrd rec0 hrec0
            simp only [List.map_append, List.mem_append]
            push_neg
            constructor
            · intro hmem
              obtain ⟨rec, hrec, hrk⟩ := List.mem_map.mp hmem
              have hkk : k = key := by rw [← hrk, hrd rec hrec]
              exact hknot (hkk ▸ hkt)
            · exact ih3 k hk

theorem collect_block (env : Env) (sched : AddressKey → Bool) :
    ∀ (ts : List (AddressKey × Row)) (md : List OutputRecord) (ma : List AddressKey)
      (k : AddressKey) (row : Row),
      (∀ p ∈ ts, addrKey p.2 = p.1) → ((ts.map Prod.fst).Nodup) →
      collect_results env sched ts = .ok (md, ma) → (k, row) ∈ ts →
      ∃ rd, address_results env (sched k) row = .ok rd ∧
        md.filter (fun rec => decide (recAddr rec = k)) = rd ∧ (k ∈ ma ↔ rd = []) := by
  intro ts
  induction ts with
  | nil => intro md ma k row _ _ _ hmem; simp at hmem
  | cons p t ih =>
    obtain ⟨key0, row0⟩ := p
    intro md ma k row hpairs hnd h hmem
    simp only [collect_results] at h
    cases ha : address_results env (sched key0) row0 with
    | error e => rw [ha] at h; exact absurd h (by simp)
    | ok rd0 =>
      rw [ha] at h
      cases hc : collect_results env sched t with
      | error e => rw [hc] at h; exact absurd h (by simp)
      | ok pr =>
        obtain ⟨mdt, mat⟩ := pr
        rw [hc] at h
        dsimp only at h
        have hkey0 : addrKey row0 = key0 := hpairs (key0, row0) (List.mem_cons_self _ _)
        have hrd0 : ∀ rec ∈ rd0, recAddr rec = key0 := by
          intro rec hrec
          rw [address_results_addr env (sched key0) row0 rd0 ha rec hrec, hkey0]
        have hpairs' : ∀ q ∈ t, addrKey q.2 = q.1 :=
          fun q hq => hpairs q (List.mem_cons_of_mem _ hq)
        have hnd' : (t.map Prod.fst).Nodup := by
          simp only [List.map_cons, List.nodup_cons] at hnd
          exact hnd.2
        have hknot : key0 ∉ t.map Prod.fst := by
          simp only [List.map_cons, List.nodup_cons] at hnd
          exact hnd.1
        obtain ⟨tmd, tma⟩ := collect_addrs env sched t mdt mat hpairs' hc
        cases List.mem_cons.mp hmem with
        | inl hhead =>
          -- (k, row) is the head entry
          have hk : k = key0 := congrArg Prod.fst hhead
          have hrow : row = row0 := congrArg Prod.snd hhead
          subst hk; subst hrow
          refine ⟨rd0, ha, ?_, ?_⟩
          · -- the filter keeps exactly the head block
            have hmdt : mdt.filter (fun rec => decide (recAddr rec = k)) = [] := by
              rw [List.filter_eq_nil_iff]
              intro rec hrec
              simp only [decide_eq_true_eq]
              intro hrk
              exact hknot (hrk ▸ tmd rec hrec)
            have hrd0f : rd0.filter (fun rec => decide (recAddr rec = k)) = rd0 := by
              rw [List.filter_eq_self]
              intro rec hrec
              simp [hrd0 rec hrec]
            by_cases hemp : rd0.isEmpty
            · rw [if_pos hemp] at h
              simp only [Except.ok.injEq, Prod.mk.injEq] at h
              obtain ⟨h1, h2⟩ := h
              subst h1
              have : rd0 = [] := List.isEmpty_iff.mp hemp
              subst this
              exact hmdt
            · rw [if_neg hemp] at h
              simp only [Except.ok.injEq, Prod.mk.injEq] at h
              obtain ⟨h1, h2⟩ := h
              subst h1
              rw [List.filter_append, hmdt, hrd0f, List.append_nil]
          · by_cases hemp : rd0.isEmpty
            · rw [if_pos hemp] at h
              simp only [Except.ok.injEq, Prod.mk.injEq] at h
              obtain ⟨h1, h2⟩ := h
              subst h2
              have : rd0 = [] := List.isEmpty_iff.mp hemp
              subst this
              simp
            · rw [if_neg hemp] at h
              simp only [Except.ok.injEq, Prod.mk.injEq] at h
              obtain ⟨h1, h2⟩ := h
              subst h2
              have hne : rd0 ≠ [] := fun hn => hemp (by rw [hn]; rfl)
              simp only [hne, iff_false]
              intro hmem2
              exact hknot (tma k hmem2)
        | inr htail =>
          -- (k, row) lies in the tail
          have hkt : k ∈ t.map Prod.fst := by
            have : (k, row).1 ∈ t.map Prod.fst := List.mem_map_of_mem Prod.fst htail
            exact this
          have hkne : key0 ≠ k := fun he => hknot (he ▸ hkt)
          obtain ⟨rd, hard, hfil, hiff⟩ := ih mdt mat k row hpairs' hnd' hc htail
          refine ⟨rd, hard, ?_, ?_⟩
          · have hrd0f : rd0.filter (fun rec => decide (recAddr rec = k)) = [] := by
              rw [List.filter_eq_nil_iff]
              intro rec hrec
              simp only [decide_eq_true_eq]
              intro hrk
              exact hkne ((hrd0 rec hrec).symm.trans hrk)
            by_cases hemp : rd0.isEmpty
            · rw [if_pos hemp] at h
              simp only [Except.ok.injEq, Prod.mk.injEq] at h
              obtain ⟨h1, h2⟩ := h
              subst h1
              exact hfil
            · rw [if_neg hemp] at h
              simp only [Except.ok.injEq, Prod.mk.injEq] at h
              obtain ⟨h1, h2⟩ := h
              subst h1
              rw [List.filter_append, hrd0f, List.nil_append]
              exact hfil
          · by_cases hemp : rd0.isEmpty
            · rw [if_pos hemp] at h
              simp only [Except.ok.injEq, Prod.mk.injEq] at h
              obtain ⟨h1, h2⟩ := h
              subst h2
              rw [← hiff]
              simp only [List.mem_cons]
              constructor
              · intro hor
                cases hor with
                | inl he => exact absurd he.symm hkne
                | inr he => exact he
              · intro hm; right; exact hm
            · rw [if_neg hemp] at h
              simp only [Except.ok.injEq, Prod.mk.injEq] at h
              obtain ⟨h1, h2⟩ := h
              subst h2
              exact hiff

theorem collect_swap (env : Env) (sA sB : AddressKey → Bool) :
    ∀ (ts : List (AddressKey × Row)),
      (collect_results env sA ts = .error () ∧ collect_results env sB ts = .error ()) ∨
      (∃ md md' ma, collect_results env sA ts = .ok (md, ma) ∧
        collect_results env sB ts = .ok (md', ma) ∧ md.Perm md') := by
  intro ts
  induction ts with
  | nil => right; exact ⟨[], [], [], rfl, rfl, List.Perm.refl _⟩
  | cons p t ih =>
    obtain ⟨key, row⟩ := p
    cases address_results_swap env (sA key) (sB key) row with
    | inl herr =>
      left
      constructor
      · simp only [collect_results, herr.1]
      · simp only [collect_results, herr.2]
    | inr hok =>
      obtain ⟨l, l', hla, hlb, hperm, hempiff⟩ := hok
      cases ih with
      | inl herr =>
        left
        constructor
        · simp only [collect_results, hla, herr.1]
        · simp only [collect_results, hlb, herr.2]
      | inr hok2 =>
        obtain ⟨md, md', ma, hca, hcb, hmperm⟩ := hok2
        right
        by_cases hemp : l.isEmpty
        · have hempl : l = [] := List.isEmpty_iff.mp hemp
          have hempl' : l' = [] := hempiff.mp hempl
          refine ⟨md, md', key :: ma, ?_, ?_, hmperm⟩
          · simp only [collect_results, hla, hca]
            rw [if_pos hemp]
          · simp only [collect_results, hlb, hcb]
            rw [if_pos (by rw [hempl']; rfl)]
        · have hnemp' : ¬ l'.isEmpty := by
            intro hcon
            exact hemp (by rw [hempiff.mpr (List.isEmpty_iff.mp hcon)]; rfl)
          refine ⟨l ++ md, l' ++ md', ma, ?_, ?_, hperm.append hmperm⟩
          · simp only [collect_results, hla, hca]
            rw [if_neg hemp]
          · simp only [collect_results, hlb, hcb]
            rw [if_neg hnemp']

theorem get_metering_points_responds (env : Env)
    (h : ∀ req, responds (env req) = true) (product pc : String) (sn : Int)
    (sna : Option String) :
    ∃ o, get_metering_points env product pc sn sna = .ok o := by
  unfold get_metering_points
  cases he : env (mk_params product pc sn sna) with
  | netFail =>
    have hr := h (mk_params product pc sn sna)
    rw [he] at hr
    simp [responds] at hr
  | response status body =>
    cases body with
    | json mps =>
      dsimp only
      by_cases st : status = 200
      · rw [if_pos st]; exact ⟨_, rfl⟩
      · rw [if_neg st]; exact ⟨_, rfl⟩
    | malformed =>
      have hr := h (mk_params product pc sn sna)
      rw [he] at hr
      simp only [responds, Bool.not_eq_true'] at hr
      have st : ¬ status = 200 := by
        intro hcon
        rw [hcon] at hr
        simp at hr
      dsimp only
      rw [if_neg st]
      exact ⟨_, rfl⟩

theorem process_product_responds (env : Env)
    (h : ∀ req, responds (env req) = true) (row : Row) (product : String)
    (sna : Option String) :
    ∃ l, process_product env row product sna = .ok l := by
  rw [process_product_eq]
  obtain ⟨o, ho⟩ := get_metering_points_responds env h product row.postalCode
    row.streetNumber sna
  rw [ho]
  exact ⟨_, rfl⟩

theorem address_results_responds (env : Env)
    (h : ∀ req, responds (env req) = true) (b : Bool) (row : Row) :
    ∃ l, address_results env b row = .ok l := by
  rw [address_results_eq]
  obtain ⟨le, hle⟩ := process_product_responds env h row "ELK"
    (normalize_addition row.streetNumberAddition)
  obtain ⟨lg, hlg⟩ := process_product_responds env h row "GAS"
    (normalize_addition row.streetNumberAddition)
  rw [hle, hlg]
  exact ⟨_, rfl⟩

theorem collect_responds (env : Env) (sched : AddressKey → Bool)
    (h : ∀ req, responds (env req) = true) :
    ∀ ts : List (AddressKey × Row),
      ∃ md ma, collect_results env sched ts = .ok (md, ma) := by
  intro ts
  induction ts with
  | nil => exact ⟨[], [], rfl⟩
  | cons p t ih =>
    obtain ⟨key, row⟩ := p
    obtain ⟨l, hl⟩ := address_results_responds env h (sched key) row
    obtain ⟨md, ma, hc⟩ := ih
    by_cases hemp : l.isEmpty
    · refine ⟨md, key :: ma, ?_⟩
      simp only [collect_results, hl, hc]
      rw [if_pos hemp]
    · refine ⟨l ++ md, ma, ?_⟩
      simp only [collect_results, hl, hc]
      rw [if_neg hemp]

theorem occurrences_eq_one (l : List AddressKey) (hnd : l.Nodup) (k : AddressKey)
    (hmem : k ∈ l) : occurrences k l = 1 := by
  induction l with
  | nil => simp at hmem
  | cons a t ih =>
    simp only [List.nodup_cons] at hnd
    cases List.mem_cons.mp hmem with
    | inl hk =>
      subst hk
      unfold occurrences
      rw [List.filter_cons]
      have hft : t.filter (fun a0 => decide (a0 = k)) = [] := by
        rw [List.filter_eq_nil_iff]
        intro a0 ha0
        simp only [decide_eq_true_eq]
        intro he
        exact hnd.1 (he ▸ ha0)
      simp [hft]
    | inr hk =>
      have hne : (decide (a = k)) = false :=
        decide_eq_false (fun he => hnd.1 (he ▸ hk))
      unfold occurrences at ih ⊢
      rw [List.filter_cons, hne]
      simp only [Bool.false_eq_true, if_false]
      exact ih hnd.2 hk

theorem format_eq_nil_iff (row : Row) (mps : List MeteringPoint) :
    format_metering_points row mps = [] ↔ mps = [] := by
  unfold format_metering_points
  simp

/-- Claim C1: for every batch that completes, the address keys covered by the
output records together with the missing-address notices are exactly the
address keys of the input rows, the missing list has no duplicates, and no
key is both missing and covered by a record. -/
theorem process_rows_address_coverage (env : Env) (sched : AddressKey → Bool)
    (rows : List Row) (md : List OutputRecord) (ma : List AddressKey)
    (h : process_rows env sched rows = .ok (md, ma)) :
    (∀ k, (k ∈ md.map recAddr ∨ k ∈ ma) ↔ k ∈ rows.map addrKey) ∧
    ma.Nodup ∧ (∀ k ∈ ma, k ∉ md.map recAddr) := by
  unfold process_rows at h
  obtain ⟨c1, c2, c3⟩ := collect_cover env sched (build_tasks rows) md ma
    (build_tasks_pairs rows) (build_tasks_nodup rows) h
  refine ⟨fun k => ?_, c2, c3⟩
  rw [c1 k, build_tasks_keys]

/-- Witness for C1 at a concrete one-row batch resolved by `envW`. -/
theorem process_rows_address_coverage_witness :
    ((("1234AB", (10 : Int)) ∈ [recW1, recW2].map recAddr ∨
      ("1234AB", (10 : Int)) ∈ ([] : List AddressKey)) ↔
      ("1234AB", (10 : Int)) ∈ [rowW].map addrKey) :=
  (process_rows_address_coverage envW (fun _ => false) [rowW] [recW1, recW2] []
    (by rfl)).1 ("1234AB", 10)

/-- Claim C2: for an address with at least one Found outcome, the records carrying
that address key are exactly one record per metering point across the Found
outcomes of its two lookups (in completion order), and the address is not
reported missing; NotFound/TransportError siblings contribute nothing. -/
theorem reducer_found_flattens (env : Env) (sched : AddressKey → Bool)
    (rows : List Row) (k : AddressKey) (row : Row) (md : List OutputRecord)
    (ma : List AddressKey) (oE oG : Option (List MeteringPoint))
    (hmem : (k, row) ∈ build_tasks rows)
    (h : process_rows env sched rows = .ok (md, ma))
    (hE : get_metering_points env "ELK" row.postalCode row.streetNumber
      (normalize_addition row.streetNumberAddition) = .ok oE)
    (hG : get_metering_points env "GAS" row.postalCode row.streetNumber
      (normalize_addition row.streetNumberAddition) = .ok oG)
    (hFound : oE.getD [] ≠ [] ∨ oG.getD [] ≠ []) :
    md.filter (fun rec => decide (recAddr rec = k)) =
      (if sched k then
        format_metering_points row (oG.getD []) ++
          format_metering_points row (oE.getD [])
      else
        format_metering_points row (oE.getD []) ++
          format_metering_points row (oG.getD [])) ∧
    k ∉ ma := by
  unfold process_rows at h
  obtain ⟨rd, hard, hfil, hiff⟩ := collect_block env sched (build_tasks rows) md ma
    k row (build_tasks_pairs rows) (build_tasks_nodup rows) h hmem
  have hE' : process_product env row "ELK" (normalize_addition row.streetNumberAddition) =
      .ok (format_metering_points row (oE.getD [])) := by
    rw [process_product_eq, hE]
  have hG' : process_product env row "GAS" (normalize_addition row.streetNumberAddition) =
      .ok (format_metering_points row (oG.getD [])) := by
    rw [process_product_eq, hG]
  have hard2 : address_results env (sched k) row =
      .ok (if sched k then
        format_metering_points row (oG.getD []) ++
          format_metering_points row (oE.getD [])
      else
        format_metering_points row (oE.getD []) ++
          format_metering_points row (oG.getD [])) := by
    rw [address_results_eq, hE', hG']
  rw [hard2] at hard
  simp only [Except.ok.injEq] at hard
  subst hard
  refine ⟨hfil, ?_⟩
  intro hmemma
  have hrdnil := hiff.mp hmemma
  cases hFound with
  | inl hne =>
    have hfe : format_metering_points row (oE.getD []) = [] := by
      by_cases hsk : sched k = true
      · rw [if_pos hsk] at hrdnil
        exact (List.append_eq_nil.mp hrdnil).2
      · rw [if_neg hsk] at hrdnil
        exact (List.append_eq_nil.mp hrdnil).1
    exact hne ((format_eq_nil_iff row _).mp hfe)
  | inr hne =>
    have hfg : format_metering_points row (oG.getD []) = [] := by
      by_cases hsk : sched k = true
      · rw [if_pos hsk] at hrdnil
        exact (List.append_eq_nil.mp hrdnil).1
      · rw [if_neg hsk] at hrdnil
        exact (List.append_eq_nil.mp hrdnil).2
    exact hne ((format_eq_nil_iff row _).mp hfg)

/-- Witness for C2: Found([mpW1, mpW2]) for ELK and NotFound for GAS yields
exactly the two flattened records and no missing notice. -/
theorem reducer_found_flattens_witness :
    [recW1, recW2].filter (fun rec => decide (recAddr rec = ("1234AB", (10 : Int)))) =
      format_metering_points rowW [mpW1, mpW2] ++ format_metering_points rowW [] ∧
    ("1234AB", (10 : Int)) ∉ ([] : List AddressKey) := by
  have h := reducer_found_flattens envW (fun _ => false) [rowW] ("1234AB", 10) rowW
    [recW1, recW2] [] (some [mpW1, mpW2]) (some []) (by decide) (by rfl) (by rfl)
    (by rfl) (by simp)
  simpa using h

/-- Claim C3: for an address both of whose outcomes are NotFound or TransportError,
exactly one missing-address notice is emitted and no record carries that
address key. -/
theorem reducer_all_not_found_missing (env : Env) (sched : AddressKey → Bool)
    (rows : List Row) (k : AddressKey) (row : Row) (md : List OutputRecord)
    (ma : List AddressKey) (oE oG : Option (List MeteringPoint))
    (hmem : (k, row) ∈ build_tasks rows)
    (h : process_rows env sched rows = .ok (md, ma))
    (hE : get_metering_points env "ELK" row.postalCode row.streetNumber
      (normalize_addition row.streetNumberAddition) = .ok oE)
    (hG : get_metering_points env "GAS" row.postalCode row.streetNumber
      (normalize_addition row.streetNumberAddition) = .ok oG)
    (hEnf : oE = some [] ∨ oE = none) (hGnf : oG = some [] ∨ oG = none) :
    occurrences k ma = 1 ∧
    md.filter (fun rec => decide (recAddr rec = k)) = [] := by
  unfold process_rows at h
  have hmand : ma.Nodup := (collect_cover env sched (build_tasks rows) md ma
    (build_tasks_pairs rows) (build_tasks_nodup rows) h).2.1
  obtain ⟨rd, hard, hfil, hiff⟩ := collect_block env sched (build_tasks rows) md ma
    k row (build_tasks_pairs rows) (build_tasks_nodup rows) h hmem
  have hE' : process_product env row "ELK" (normalize_addition row.streetNumberAddition) =
      .ok [] := by
    rw [process_product_eq, hE]
    cases hEnf with
    | inl he => rw [he]; rfl
    | inr he => rw [he]; rfl
  have hG' : process_product env row "GAS" (normalize_addition row.streetNumberAddition) =
      .ok [] := by
    rw [process_product_eq, hG]
    cases hGnf with
    | inl he => rw [he]; rfl
    | inr he => rw [he]; rfl
  have hard2 : address_results env (sched k) row = .ok [] := by
    rw [address_results_eq, hE', hG']
    cases sched k <;> rfl
  rw [hard2] at hard
  simp only [Except.ok.injEq] at hard
  subst hard
  have hmemma : k ∈ ma := hiff.mpr rfl
  refine ⟨occurrences_eq_one ma hmand k hmemma, hfil⟩

/-- Witness for C3: both lookups of the concrete address find nothing
(absent meteringPoints key for ELK, a 500 for GAS). -/
theorem reducer_all_not_found_missing_witness :
    occurrences ("1234AB", (10 : Int)) [("1234AB", (10 : Int))] = 1 ∧
    ([] : List OutputRecord).filter
      (fun rec => decide (recAddr rec = ("1234AB", (10 : Int)))) = [] := by
  have h := reducer_all_not_found_missing envN (fun _ => false) [rowW]
    ("1234AB", 10) rowW [] [("1234AB", 10)] (some []) none (by decide) (by rfl)
    (by rfl) (by rfl) (by simp) (by simp)
  simpa using h

/-- Claim C4 (amended): the registry client's outcome taxonomy as implemented — a
200 response with a well-formed body yields the parsed list (absent
`meteringPoints` treated as empty); any non-200 response yields `None`
without parsing the body; a raised network error or a malformed 200 body
propagates as an exception instead of returning a transport-error value. -/
theorem registry_client_outcome_taxonomy (env : Env) (product pc : String)
    (sn : Int) (sna : Option String) :
    (∀ mps, env (mk_params product pc sn sna) = .response 200 (.json mps) →
      get_metering_points env product pc sn sna = .ok (some (mps.getD []))) ∧
    (∀ status body, status ≠ 200 →
      env (mk_params product pc sn sna) = .response status body →
      get_metering_points env product pc sn sna = .ok none) ∧
    (env (mk_params product pc sn sna) = .netFail →
      get_metering_points env product pc sn sna = .error ()) ∧
    (env (mk_params product pc sn sna) = .response 200 .malformed →
      get_metering_points env product pc sn sna = .error ()) := by
  refine ⟨?_, ?_, ?_, ?_⟩
  · intro mps he
    unfold get_metering_points
    rw [he]
    rfl
  · intro status body hst he
    unfold get_metering_points
    rw [he]
    dsimp only
    rw [if_neg hst]
  · intro he
    unfold get_metering_points
    rw [he]
  · intro he
    unfold get_metering_points
    rw [he]
    rfl

/-- Witness for C4 at a concrete 404 response: the lookup returns `None`. -/
theorem registry_client_outcome_taxonomy_witness :
    get_metering_points envB "ELK" "1234AB" 10 none = .ok none :=
  (registry_client_outcome_taxonomy envB "ELK" "1234AB" 10 none).2.1
    404 (Body.json (some [])) (by decide) rfl

/-- Claim C4 counterexample: on a network failure the lookup does not return a
transport-error value — it raises to the caller (the claim says it never
raises). -/
theorem registry_client_netfail_raises :
    get_metering_points envF "ELK" "1234AB" 10 none = .error () := rfl

/-- Claim C5 (amended): a per-lookup TransportError (any non-200 response) never
aborts the batch: if every request draws an HTTP response that the client
handles without an exception, the batch returns a terminal outcome pair. -/
theorem dispatcher_no_abort_on_transport_error (env : Env)
    (sched : AddressKey → Bool) (rows : List Row)
    (h : ∀ req, responds (env req) = true) :
    ∃ md ma, process_rows env sched rows = .ok (md, ma) := by
  unfold process_rows
  exact collect_responds env sched h (build_tasks rows)

/-- Witness for C5: a registry that is down (503 everywhere) still lets the
batch complete. -/
theorem dispatcher_no_abort_on_transport_error_witness :
    ∃ md ma, process_rows envT (fun _ => false) [rowW] = .ok (md, ma) :=
  dispatcher_no_abort_on_transport_error envT (fun _ => false) [rowW]
    (fun _ => rfl)

/-- Claim C5 counterexample: a thrown fault in one lookup (a raised network error)
aborts the whole batch — `process_rows` raises instead of collecting a
terminal outcome for every task. -/
theorem thrown_fault_aborts_batch :
    process_rows envF (fun _ => false) [rowW] = .error () := rfl

/-- Claim C6 (amended): the final record sequence is sorted ascending by
(postalCode, streetNumber, streetNumberAddition, product), with an absent
streetNumberAddition sorting after (not before) any present value, as
pandas' default na_position="last" does. -/
theorem output_sorted_absent_addition_last (env : Env)
    (sched : AddressKey → Bool) (rows : List Row) (out : List OutputRecord)
    (miss : List AddressKey)
    (h : validate_and_process_csv env sched rows = .ok (out, miss)) :
    List.Sorted (fun a b => record_le a b = true) out := by
  unfold validate_and_process_csv at h
  cases hp : process_rows env sched rows with
  | error e => rw [hp] at h; exact absurd h (by simp)
  | ok pr =>
    obtain ⟨md, ma⟩ := pr
    rw [hp] at h
    simp only [Except.ok.injEq, Prod.mk.injEq] at h
    rw [← h.1]
    exact sort_records_sorted md

/-- Witness for C6 at the concrete `envW` batch, whose sorted output puts the
record with addition "A" before the record with no addition. -/
theorem output_sorted_absent_addition_last_witness :
    List.Sorted (fun a b => record_le a b = true) [recW2, recW1] :=
  output_sorted_absent_addition_last envW (fun _ => false) [rowW]
    [recW2, recW1] [] (by rfl)

/-- Claim C6 counterexample: the concrete sorted output `[recW2, recW1]` places the
absent streetNumberAddition after the present one, so it is not sorted under
the claim's order (absent before any present value). -/
theorem output_not_sorted_under_absent_first_order :
    validate_and_process_csv envW (fun _ => false) [rowW] = .ok ([recW2, recW1], []) ∧
    ¬ List.Sorted (fun a b => spec_record_le a b = true) [recW2, recW1] := by
  refine ⟨rfl, ?_⟩
  intro h
  have := List.rel_of_sorted_cons h recW1 (List.mem_cons_self _ _)
  exact absurd this (by decide)

/-- Claim C7: the streetNumberAddition normalization maps exactly the empty string
and the absent/NaN value to the explicit absent value, and the request
includes the parameter precisely when the normalized value is present (a
present normalized value is never the empty string, and an empty-string
argument is omitted from the request, never sent as empty). -/
theorem addition_normalization_and_request_param (raw : Option String)
    (product pc : String) (sn : Int) :
    ((raw = none ∨ raw = some "") ↔ normalize_addition raw = none) ∧
    (mk_params product pc sn (normalize_addition raw)).streetNumberAddition =
      normalize_addition raw ∧
    normalize_addition raw ≠ some "" ∧
    (mk_params product pc sn (some "")).streetNumberAddition = none := by
  cases raw with
  | none => simp [normalize_addition, mk_params]
  | some s =>
    by_cases hs : s = ""
    · subst hs
      simp [normalize_addition, mk_params]
    · simp [normalize_addition, mk_params, hs]

/-- Claim C8 (amended): the sorted output is independent of the completion order of
the concurrent lookups provided the full sort key is injective on the
emitted records; records tying on the key can appear in completion-dependent
order (pandas' quicksort is additionally unstable on such ties). -/
theorem output_independent_of_completion_order (env : Env)
    (sA sB : AddressKey → Bool) (rows : List Row) (md : List OutputRecord)
    (ma : List AddressKey)
    (h : process_rows env sA rows = .ok (md, ma))
    (hnd : (md.map recKey).Nodup) :
    validate_and_process_csv env sA rows = validate_and_process_csv env sB rows := by
  unfold process_rows at h
  cases collect_swap env sA sB (build_tasks rows) with
  | inl herr =>
    rw [herr.1] at h
    exact absurd h (by simp)
  | inr hok =>
    obtain ⟨mdA, mdB, maC, hA, hB, hperm⟩ := hok
    rw [hA] at h
    simp only [Except.ok.injEq, Prod.mk.injEq] at h
    obtain ⟨h1, h2⟩ := h
    subst h1; subst h2
    unfold validate_and_process_csv process_rows
    rw [hA, hB]
    dsimp only
    have hsort : sort_records mdA = sort_records mdB := by
      apply sorted_eq_of_perm_of_nodup_keys
      · exact (sort_records_perm mdA).trans (hperm.trans (sort_records_perm mdB).symm)
      · exact sort_records_sorted mdA
      · exact sort_records_sorted mdB
      · have hpk : ((sort_records mdA).map recKey).Perm (mdA.map recKey) :=
          (sort_records_perm mdA).map recKey
        exact hpk.nodup_iff.mpr hnd
    rw [hsort]

/-- Witness for C8: the `envW` batch has key-distinct records, so both
completion orders yield the same sorted output. -/
theorem output_independent_of_completion_order_witness :
    validate_and_process_csv envW (fun _ => false) [rowW] =
      validate_and_process_csv envW (fun _ => true) [rowW] :=
  output_independent_of_completion_order envW (fun _ => false) (fun _ => true)
    [rowW] [recW1, recW2] [] (by rfl) (by decide)

/-- Claim C8 counterexample: when the GAS lookup echoes a point whose product field
equals the ELK record's, the two records tie on the full sort key and the
sorted outputs of the two completion orders differ. -/
theorem completion_order_visible_on_tied_keys :
    validate_and_process_csv envX (fun _ => false) [rowW] = .ok ([recX1, recX2], []) ∧
    validate_and_process_csv envX (fun _ => true) [rowW] = .ok ([recX2, recX1], []) ∧
    ([recX1, recX2] : List OutputRecord) ≠ [recX2, recX1] :=
  ⟨rfl, rfl, by decide⟩

/-- Claim C9: each output record takes postalCode and streetNumber from the request
row and streetNumberAddition (the nested address one), bagId, product, ean
and specialMeteringPoint from the registry's metering point, one record per
point in order. -/
theorem format_field_provenance (row : Row) (mps : List MeteringPoint) :
    (format_metering_points row mps).length = mps.length ∧
    ∀ (i : Nat) (mp : MeteringPoint), mps[i]? = some mp →
      (format_metering_points row mps)[i]? = some
        ({ postalCode := row.postalCode, streetNumber := row.streetNumber,
           streetNumberAddition := mp.addressStreetNumberAddition,
           bagId := mp.bagId, product := mp.product, ean := mp.ean,
           specialMeteringPoint := mp.specialMeteringPoint } : OutputRecord) := by
  constructor
  · unfold format_metering_points
    exact List.length_map mps _
  · intro i mp hmp
    unfold format_metering_points
    rw [List.getElem?_map, hmp]
    rfl

/-- Witness for C9 at the concrete row and metering point. -/
theorem format_field_provenance_witness :
    (format_metering_points rowW [mpW1])[0]? = some
      ({ postalCode := rowW.postalCode, streetNumber := rowW.streetNumber,
         streetNumberAddition := mpW1.addressStreetNumberAddition,
         bagId := mpW1.bagId, product := mpW1.product, ean := mpW1.ean,
         specialMeteringPoint := mpW1.specialMeteringPoint } : OutputRecord) :=
  (format_field_provenance rowW [mpW1]).2 0 mpW1 rfl

/-- Claim C10: a later duplicate row resets its key's entry in the task map, so the
map holds exactly the last row per address key, and the batch result is the
one obtained from those surviving rows alone — the earlier duplicates'
lookups contribute nothing. -/
theorem duplicate_rows_last_wins (rows : List Row) (k : AddressKey) (env : Env)
    (sched : AddressKey → Bool) :
    lookupKey (build_tasks rows) k = lastRowFor rows k ∧
    process_rows env sched rows =
      process_rows env sched ((build_tasks rows).map Prod.snd) := by
  refine ⟨build_tasks_lookup rows k, ?_⟩
  unfold process_rows
  rw [build_tasks_idem]



/-- Witness for C7 at the concrete addition value "A". -/
theorem addition_normalization_and_request_param_witness :
    (mk_params "ELK" "1234AB" 10 (normalize_addition (some "A"))).streetNumberAddition =
      normalize_addition (some "A") :=
  (addition_normalization_and_request_param (some "A") "ELK" "1234AB" 10).2.1

/-- Witness for C10 at a concrete batch with two rows sharing one address
key: the task map holds the later row. -/
theorem duplicate_rows_last_wins_witness :
    lookupKey (build_tasks [rowW, rowY]) ("1234AB", (10 : Int)) =
      lastRowFor [rowW, rowY] ("1234AB", (10 : Int)) :=
  (duplicate_rows_last_wins [rowW, rowY] ("1234AB", 10) envW (fun _ => false)).1

end EanApp
